import Mathlib

/-!
Verification of the value-extraction core of the key-finder repository
(`src/app/page.tsx`).  The relevant TypeScript functions — `getByPath`,
`tryParseJson`, `escapeRegExp`, `decodeMaybe`, `searchUrlLike`,
`searchJsonLike`, `extractValue` — are embedded below as executable Lean
functions.  JavaScript platform built-ins used by that code (`JSON.parse`,
`Number`, `decodeURIComponent`, `URL`, `URLSearchParams`, and the three
regular expressions) are modelled from their ECMAScript / WHATWG
specifications; each such model carries a doc comment saying so.

Conventions of the embedding:
* JavaScript `undefined` is `Option.none`; JavaScript `null` is the value
  `JsonValue.null` (so `Option JsonValue` distinguishes absence from null,
  exactly as the code distinguishes `undefined` from `null`).
* JavaScript numbers are modelled as exact rationals.  All numbers produced
  by the code are finite decimals, and no claim depends on binary floating
  point rounding.
* Strings are processed as their character lists, so that every definition
  evaluates inside the kernel.
-/

/-! ## Character utilities -/

/-- Model of the character set matched by JavaScript `\s` in regular
expressions and removed by `String.prototype.trim`: WhiteSpace and
LineTerminator code points. -/
def jsWSChar (c : Char) : Bool :=
  let n := c.toNat
  n == 9 || n == 10 || n == 11 || n == 12 || n == 13 || n == 32 ||
  n == 0xa0 || n == 0x1680 || (0x2000 ≤ n && n ≤ 0x200a) ||
  n == 0x2028 || n == 0x2029 || n == 0x202f || n == 0x205f ||
  n == 0x3000 || n == 0xfeff

/-- Model of JavaScript `String.prototype.trim` on a character list. -/
def jsTrimList (cs : List Char) : List Char :=
  ((cs.dropWhile jsWSChar).reverse.dropWhile jsWSChar).reverse

/-- Model of JavaScript `String.prototype.trim`. -/
def jsTrim (s : String) : String := String.mk (jsTrimList s.data)

def isAsciiDigit (c : Char) : Bool := 48 ≤ c.toNat && c.toNat ≤ 57

def isAsciiAlpha (c : Char) : Bool :=
  (65 ≤ c.toNat && c.toNat ≤ 90) || (97 ≤ c.toNat && c.toNat ≤ 122)

/-- ASCII lower-casing, modelling the case canonicalisation performed by the
`i` flag of the JavaScript regular expressions in the source (all keys and
tokens involved are ASCII). -/
def asciiLower (c : Char) : Char :=
  if 65 ≤ c.toNat && c.toNat ≤ 90 then Char.ofNat (c.toNat + 32) else c

def digitVal (c : Char) : Nat := c.toNat - 48

/-- Hexadecimal digit value (both cases), as used by the ECMAScript number
and URI grammars. -/
def hexVal (c : Char) : Option Nat :=
  if 48 ≤ c.toNat && c.toNat ≤ 57 then some (c.toNat - 48)
  else if 97 ≤ c.toNat && c.toNat ≤ 102 then some (c.toNat - 87)
  else if 65 ≤ c.toNat && c.toNat ≤ 70 then some (c.toNat - 55)
  else none

def natOfDigits (ds : List Char) : Nat :=
  ds.foldl (fun a c => 10 * a + digitVal c) 0

/-! ## JSON value data model

The TypeScript code works with `JsonValue = string | number | boolean | null
| JsonObject | JsonArray` (`page.tsx` lines 12–14). -/

inductive JsonValue where
  | str (s : String)
  | num (q : Rat)
  | bool (b : Bool)
  | null
  | obj (fields : List (String × JsonValue))
  | arr (elems : List JsonValue)
deriving Repr

/-- Embedding of `isObject` (`page.tsx` lines 16–18): `typeof v === "object"
&& v !== null && !Array.isArray(v)`. -/
def isObject : JsonValue → Bool
  | .obj _ => true
  | _ => false

/-- A JavaScript value `v` with `typeof v !== "object"`: a string, number or
boolean (JavaScript `null` and composites have `typeof "object"`). -/
def isNonNullScalar : JsonValue → Bool
  | .str _ => true
  | .num _ => true
  | .bool _ => true
  | _ => false

/-- A non-composite value (string, number, boolean or null). -/
def isScalar : JsonValue → Bool
  | .obj _ => false
  | .arr _ => false
  | _ => true

/-- Own-property lookup on a JavaScript object modelled as an association
list with unique keys (see `objInsert`).  Prototype-chain lookups are not
modelled. -/
def jsLookup : List (String × JsonValue) → String → Option JsonValue
  | [], _ => none
  | (k, v) :: rest, key => if k = key then some v else jsLookup rest key

/-- Property assignment on a JavaScript object: a later assignment to an
existing key overwrites it in place, a new key is appended (this reproduces
`JSON.parse` duplicate-key behaviour: last value wins, original position). -/
def objInsert : List (String × JsonValue) → String → JsonValue → List (String × JsonValue)
  | [], k, v => [(k, v)]
  | (k1, v1) :: rest, k, v =>
    if k1 = k then (k, v) :: rest else (k1, v1) :: objInsert rest k v

/-! ## Model of JavaScript `Number()` on strings -/

/-- Exponent part of an ECMAScript StrDecimalLiteral: the whole remaining
input must be empty or a complete `[eE][+-]?digits` exponent. -/
def expTail (cs : List Char) : Option Int :=
  match cs with
  | [] => some 0
  | c :: rest =>
    if c == 'e' || c == 'E' then
      match rest with
      | '+' :: r2 =>
        if r2 ≠ [] ∧ r2.all isAsciiDigit then some (natOfDigits r2) else none
      | '-' :: r2 =>
        if r2 ≠ [] ∧ r2.all isAsciiDigit then some (-(natOfDigits r2 : Int)) else none
      | r2 =>
        if r2 ≠ [] ∧ r2.all isAsciiDigit then some (natOfDigits r2) else none
    else none

/-- Unsigned decimal literal `digits [. digits] [exp]` or `. digits [exp]`,
consuming the whole input; returns mantissa and power-of-ten exponent. -/
def decLiteral (cs : List Char) : Option (Nat × Int) :=
  let ip := cs.takeWhile isAsciiDigit
  let r1 := cs.dropWhile isAsciiDigit
  match r1 with
  | '.' :: r2 =>
    let fp := r2.takeWhile isAsciiDigit
    let r3 := r2.dropWhile isAsciiDigit
    if ip = [] ∧ fp = [] then none
    else match expTail r3 with
      | some e => some (natOfDigits (ip ++ fp), e - fp.length)
      | none => none
  | _ =>
    if ip = [] then none
    else match expTail r1 with
      | some e => some (natOfDigits ip, e)
      | none => none

/-- Builds the rational `±mant · 10^exp10`. -/
def ratOfParts (neg : Bool) (mant : Nat) (exp10 : Int) : Rat :=
  let m : Int := if neg then -(mant : Int) else (mant : Int)
  if 0 ≤ exp10 then ((m * ((10 : Int) ^ exp10.toNat) : Int) : Rat)
  else mkRat m ((10 : Nat) ^ (-exp10).toNat)

/-- Integer literal in radix 2, 8 or 16 (ECMAScript NonDecimalIntegerLiteral
digits), consuming the whole input. -/
def radixNat (radix : Nat) (cs : List Char) : Option Rat :=
  if cs ≠ [] ∧ cs.all (fun c => match hexVal c with | some v => v < radix | none => false) then
    some ((cs.foldl (fun a c => radix * a + (hexVal c).getD 0) 0 : Nat) : Rat)
  else none

/-- Model of the JavaScript `Number()` conversion applied to a string
(ECMAScript StringNumericLiteral): trims JavaScript whitespace, empty means
0, otherwise a signed decimal literal or an unsigned `0x`/`0o`/`0b` literal.
`none` models `NaN`.  `Infinity` is also mapped to `none`: at every use site
in the source the result only feeds `Number.isInteger` or `Number.isNaN`
guards where an infinite value behaves exactly like a failure. -/
def jsNumber (s : String) : Option Rat :=
  let cs := jsTrimList s.data
  match cs with
  | [] => some 0
  | _ =>
    let nonDec : Option Rat :=
      match cs with
      | '0' :: c :: rest =>
        if c == 'x' || c == 'X' then radixNat 16 rest
        else if c == 'o' || c == 'O' then radixNat 8 rest
        else if c == 'b' || c == 'B' then radixNat 2 rest
        else none
      | _ => none
    match nonDec with
    | some q => some q
    | none =>
      let sgn : Bool × List Char :=
        match cs with
        | '+' :: r => (false, r)
        | '-' :: r => (true, r)
        | _ => (false, cs)
      if sgn.2 = "Infinity".data then none
      else match decLiteral sgn.2 with
        | some (m, e) => some (ratOfParts sgn.1 m e)
        | none => none

/-! ## Path resolver (`getByPath`, `page.tsx` lines 20–36) -/

/-- `path.split(".")` on character lists (JavaScript `String.prototype.split`
with a single-character separator, keeping empty pieces). -/
def splitDots : List Char → List Char → List String
  | [], acc => [String.mk acc.reverse]
  | '.' :: rest, acc => String.mk acc.reverse :: splitDots rest []
  | c :: rest, acc => splitDots rest (c :: acc)

/-- `path.split(".").filter(Boolean)`: the non-empty dot-separated segments. -/
def pathSegs (path : String) : List String :=
  (splitDots path.data []).filter (fun s => s ≠ "")

/-- Array indexing step of `getByPath` (line 27–28): `idx = Number(p);
cur = Number.isInteger(idx) ? cur[idx] : undefined`.  A fractional, `NaN`,
negative or out-of-range index yields `undefined`. -/
def jsIndex (xs : List JsonValue) (p : String) : Option JsonValue :=
  match jsNumber p with
  | none => none
  | some q => if q.den = 1 ∧ 0 ≤ q.num then xs.get? q.num.toNat else none

/-- The loop of `getByPath` (lines 24–34): at each segment, a `null` or
`undefined` current value fails; a sequence is indexed via `jsIndex`; a
mapping is looked up; any other value with a segment remaining fails. -/
def walkPath : Option JsonValue → List String → Option JsonValue
  | cur, [] => cur
  | none, _ :: _ => none
  | some .null, _ :: _ => none
  | some (.arr xs), p :: ps => walkPath (jsIndex xs p) ps
  | some (.obj fs), p :: ps => walkPath (jsLookup fs p) ps
  | some _, _ :: _ => none

/-- Embedding of `getByPath` (`page.tsx` lines 20–36).  Note the guard on
line 21: `if (!isObject(obj)) return undefined` — any non-mapping top-level
value (including a sequence) fails before the walk starts. -/
def getByPath (v : JsonValue) (path : String) : Option JsonValue :=
  if isObject v then walkPath (some v) (pathSegs path) else none

/-! Sanity checks of the resolver against the runtime behaviour. -/

example : getByPath (.obj [("user", .obj [("id", .num 42)])]) "user.id" = some (.num 42) := rfl
example : getByPath (.obj [("items", .arr [.num 10, .num 20, .num 30])]) "items.1" = some (.num 20) := rfl
example : getByPath (.obj [("items", .arr [.num 10, .num 20, .num 30])]) "items.x" = none := rfl
example : getByPath (.arr [.num 10, .num 20, .num 30]) "1" = none := rfl
example : getByPath (.obj [("a", .obj [("b", .null)])]) "a.b" = some .null := rfl
example : getByPath (.obj [("a", .num 1)]) ".a." = some (.num 1) := rfl
example : getByPath (.obj [("a", .null)]) "a.b" = none := rfl
example : jsNumber "1.0" = some 1 := by decide
example : jsNumber "" = some 0 := by decide
example : jsNumber "0x10" = some 16 := by decide
example : jsNumber "1e2" = some 100 := by decide
example : jsNumber "1.2.3" = none := by decide
example : jsNumber "-" = none := by decide
example : jsNumber "  12  " = some 12 := by decide
example : jsNumber "12.5" = some (mkRat 25 2) := by decide

/-! ## Model of `JSON.parse` (used by `tryParseJson`, `page.tsx` lines 38–46) -/

/-- JSON insignificant whitespace (space, tab, line feed, carriage return). -/
def skipJWs (cs : List Char) : List Char :=
  cs.dropWhile (fun c => c == ' ' || c == '\t' || c == '\n' || c == '\r')

/-- Body of a JSON string after the opening quote: returns the decoded
content and the remaining input after the closing quote.  Escapes follow the
JSON grammar; an unescaped control character is an error.  JavaScript keeps
lone UTF-16 surrogates in the decoded string; since Lean strings hold only
scalar values, a lone surrogate is mapped to U+FFFD (no claim depends on
it), and a valid surrogate pair becomes the encoded code point. -/
def pStringBody : Nat → List Char → Option (List Char × List Char)
  | 0, _ => none
  | _ + 1, [] => none
  | _ + 1, '"' :: rest => some ([], rest)
  | fuel + 1, '\\' :: rest =>
    match rest with
    | '"' :: r => (pStringBody fuel r).map (fun p => ('"' :: p.1, p.2))
    | '\\' :: r => (pStringBody fuel r).map (fun p => ('\\' :: p.1, p.2))
    | '/' :: r => (pStringBody fuel r).map (fun p => ('/' :: p.1, p.2))
    | 'b' :: r => (pStringBody fuel r).map (fun p => (Char.ofNat 8 :: p.1, p.2))
    | 'f' :: r => (pStringBody fuel r).map (fun p => (Char.ofNat 12 :: p.1, p.2))
    | 'n' :: r => (pStringBody fuel r).map (fun p => ('\n' :: p.1, p.2))
    | 'r' :: r => (pStringBody fuel r).map (fun p => (Char.ofNat 13 :: p.1, p.2))
    | 't' :: r => (pStringBody fuel r).map (fun p => ('\t' :: p.1, p.2))
    | 'u' :: a :: b :: c :: d :: r =>
      match hexVal a, hexVal b, hexVal c, hexVal d with
      | some ha, some hb, some hc, some hd =>
        let n := 4096 * ha + 256 * hb + 16 * hc + hd
        if 0xd800 ≤ n ∧ n ≤ 0xdbff then
          match r with
          | '\\' :: 'u' :: a2 :: b2 :: c2 :: d2 :: r2 =>
            (match hexVal a2, hexVal b2, hexVal c2, hexVal d2 with
             | some ha2, some hb2, some hc2, some hd2 =>
               let m := 4096 * ha2 + 256 * hb2 + 16 * hc2 + hd2
               if 0xdc00 ≤ m ∧ m ≤ 0xdfff then
                 (pStringBody fuel r2).map
                   (fun p => (Char.ofNat (0x10000 + (n - 0xd800) * 1024 + (m - 0xdc00)) :: p.1, p.2))
               else (pStringBody fuel r).map (fun p => (Char.ofNat 0xfffd :: p.1, p.2))
             | _, _, _, _ => (pStringBody fuel r).map (fun p => (Char.ofNat 0xfffd :: p.1, p.2)))
          | _ => (pStringBody fuel r).map (fun p => (Char.ofNat 0xfffd :: p.1, p.2))
        else if 0xdc00 ≤ n ∧ n ≤ 0xdfff then
          (pStringBody fuel r).map (fun p => (Char.ofNat 0xfffd :: p.1, p.2))
        else (pStringBody fuel r).map (fun p => (Char.ofNat n :: p.1, p.2))
      | _, _, _, _ => none
    | _ => none
  | fuel + 1, c :: rest =>
    if c.toNat < 0x20 then none
    else (pStringBody fuel rest).map (fun p => (c :: p.1, p.2))

/-- A JSON number literal at the head of the input: `-? int frac? exp?`
with `int = 0 | [1-9]digits`, `frac = . digits+`, `exp = [eE][+-]?digits+`.
Returns the value and the remaining input. -/
def pNum (cs : List Char) : Option (Rat × List Char) :=
  let sgn : Bool × List Char :=
    match cs with
    | '-' :: r => (true, r)
    | _ => (false, cs)
  let ipart : Option (Nat × List Char) :=
    match sgn.2 with
    | '0' :: r => some (0, r)
    | c :: _ =>
      if isAsciiDigit c then
        some (natOfDigits (sgn.2.takeWhile isAsciiDigit), sgn.2.dropWhile isAsciiDigit)
      else none
    | [] => none
  match ipart with
  | none => none
  | some (ip, r1) =>
    let fpart : Option (List Char × List Char) :=
      match r1 with
      | '.' :: r2 =>
        let fp := r2.takeWhile isAsciiDigit
        if fp = [] then none else some (fp, r2.dropWhile isAsciiDigit)
      | _ => some ([], r1)
    match fpart with
    | none => none
    | some (fp, r3) =>
      let epart : Option (Int × List Char) :=
        match r3 with
        | 'e' :: '+' :: r4 =>
          let ed := r4.takeWhile isAsciiDigit
          if ed = [] then none else some ((natOfDigits ed : Int), r4.dropWhile isAsciiDigit)
        | 'e' :: '-' :: r4 =>
          let ed := r4.takeWhile isAsciiDigit
          if ed = [] then none else some (-(natOfDigits ed : Int), r4.dropWhile isAsciiDigit)
        | 'e' :: r4 =>
          let ed := r4.takeWhile isAsciiDigit
          if ed = [] then none else some ((natOfDigits ed : Int), r4.dropWhile isAsciiDigit)
        | 'E' :: '+' :: r4 =>
          let ed := r4.takeWhile isAsciiDigit
          if ed = [] then none else some ((natOfDigits ed : Int), r4.dropWhile isAsciiDigit)
        | 'E' :: '-' :: r4 =>
          let ed := r4.takeWhile isAsciiDigit
          if ed = [] then none else some (-(natOfDigits ed : Int), r4.dropWhile isAsciiDigit)
        | 'E' :: r4 =>
          let ed := r4.takeWhile isAsciiDigit
          if ed = [] then none else some ((natOfDigits ed : Int), r4.dropWhile isAsciiDigit)
        | _ => some (0, r3)
      match epart with
      | none => none
      | some (e, r5) =>
        some (ratOfParts sgn.1 (ip * 10 ^ fp.length + natOfDigits fp) (e - fp.length), r5)

/-- Parser mode: a value, the members of an object being read, or the
elements of an array being read. -/
inductive PMode where
  | val
  | objMember (acc : List (String × JsonValue))
  | arrElem (acc : List JsonValue)

/-- Recursive core of the `JSON.parse` model, structured as a fuel-indexed
descent so that the kernel can evaluate it.  `PMode.objMember` is entered
after `{` when the object is non-empty, `PMode.arrElem` after `[` when the
array is non-empty. -/
def pRun : Nat → PMode → List Char → Option (JsonValue × List Char)
  | 0, _, _ => none
  | fuel + 1, .val, cs0 =>
    let cs := skipJWs cs0
    match cs with
    | '{' :: rest =>
      let r := skipJWs rest
      (match r with
       | '}' :: r2 => some (.obj [], r2)
       | _ => pRun fuel (.objMember []) r)
    | '[' :: rest =>
      let r := skipJWs rest
      (match r with
       | ']' :: r2 => some (.arr [], r2)
       | _ => pRun fuel (.arrElem []) r)
    | '"' :: rest => (pStringBody (rest.length + 1) rest).map (fun p => (.str (String.mk p.1), p.2))
    | 't' :: 'r' :: 'u' :: 'e' :: r => some (.bool true, r)
    | 'f' :: 'a' :: 'l' :: 's' :: 'e' :: r => some (.bool false, r)
    | 'n' :: 'u' :: 'l' :: 'l' :: r => some (.null, r)
    | _ => (pNum cs).map (fun p => (.num p.1, p.2))
  | fuel + 1, .objMember acc, cs0 =>
    let cs := skipJWs cs0
    match cs with
    | '"' :: rest =>
      (match pStringBody (rest.length + 1) rest with
       | none => none
       | some (kcs, r1) =>
         match skipJWs r1 with
         | ':' :: r3 =>
           (match pRun fuel .val r3 with
            | none => none
            | some (v, r4) =>
              let acc2 := objInsert acc (String.mk kcs) v
              match skipJWs r4 with
              | ',' :: r6 => pRun fuel (.objMember acc2) r6
              | '}' :: r6 => some (.obj acc2, r6)
              | _ => none)
         | _ => none)
    | _ => none
  | fuel + 1, .arrElem acc, cs0 =>
    match pRun fuel .val cs0 with
    | none => none
    | some (v, r1) =>
      match skipJWs r1 with
      | ',' :: r3 => pRun fuel (.arrElem (acc ++ [v])) r3
      | ']' :: r3 => some (.arr (acc ++ [v]), r3)
      | _ => none

/-- Embedding of `tryParseJson` (`page.tsx` lines 38–46): trim, empty input
is `undefined`, then `JSON.parse` with any thrown error captured as
`undefined`.  The model requires the parsed value to consume the whole
input up to trailing JSON whitespace, as `JSON.parse` does. -/
def tryParseJson (input : String) : Option JsonValue :=
  let t := jsTrimList input.data
  if t = [] then none
  else match pRun (2 * t.length + 4) .val t with
    | some (v, rest) => if skipJWs rest = [] then some v else none
    | none => none

example : tryParseJson "\x7b\"eid\":\"A1\"\x7d" = some (.obj [("eid", .str "A1")]) := rfl
example : tryParseJson " \x7b \"a\" : [ 1 , true , null ] \x7d " =
    some (.obj [("a", .arr [.num 1, .bool true, .null])]) := rfl
example : tryParseJson "\x7b\"a\":1,\"b\":2,\"a\":3\x7d" =
    some (.obj [("a", .num 3), ("b", .num 2)]) := rfl
example : tryParseJson "\x7b\"eid\":\"A1\"\x7d eid=B2" = none := rfl
example : tryParseJson "\"EID\": \"x\"" = none := rfl
example : tryParseJson "01" = none := rfl
example : tryParseJson "-12.5e1" = some (.num (-125)) := rfl
example : tryParseJson "\"a\\u0041\\n\"" = some (.str "aA\n") := rfl
example : tryParseJson "null" = some .null := rfl
example : tryParseJson "" = none := rfl
example : tryParseJson "\x7b\"user\":\x7b\"id\":42\x7d\x7d" =
    some (.obj [("user", .obj [("id", .num 42)])]) := rfl

/-! ## Hand-compiled models of the three regular expressions

Each JavaScript regular expression of the source is modelled by a direct
matcher over character lists.  `new RegExp(...)` receives patterns whose
only key-dependent part is `escapeRegExp(key)`; since `escapeRegExp`
(`page.tsx` lines 48–50) escapes every regex metacharacter, the key always
matches as a literal character sequence, which the matchers implement
directly.  The `i` flag of the patterns is modelled by comparing through
`asciiLower`.  `String.prototype.match` without the `g` flag returns the
leftmost match; `scanFirst` implements that by anchoring the matcher at
every start position from the left. -/

/-- Embedding of `escapeRegExp` (`page.tsx` lines 48–50):
`s.replace(/[.*+?^$\x7b\x7d()|[\]\\]/g, "\\$&")`. -/
def escapeRegExp (s : String) : String :=
  String.mk (s.data.flatMap (fun c =>
    if c == '.' || c == '*' || c == '+' || c == '?' || c == '^' || c == '$' ||
       c == Char.ofNat 0x7b || c == Char.ofNat 0x7d || c == '(' || c == ')' ||
       c == '|' || c == '[' || c == ']' || c == '\\'
    then ['\\', c] else [c]))

/-- Leftmost-match search: try the anchored matcher at every suffix, from
the whole input down, and return the first success. -/
def scanFirst {α : Type} (f : List Char → Option α) : List Char → Option α
  | [] => f []
  | c :: rest =>
    match f (c :: rest) with
    | some v => some v
    | none => scanFirst f rest

/-- Case-insensitive literal match of `key` at the head of the input;
returns the remaining input on success. -/
def stripCI : List Char → List Char → Option (List Char)
  | [], rest => some rest
  | _ :: _, [] => none
  | k :: ks, c :: cs => if asciiLower c = asciiLower k then stripCI ks cs else none

/-- Regex alternative `"([^"]+)"`: a nonempty double-quoted run. -/
def altDQ (cs : List Char) : Option (List Char) :=
  match cs with
  | c :: rest =>
    if c = '"' then
      let content := rest.takeWhile (fun x => x ≠ '"')
      match rest.dropWhile (fun x => x ≠ '"') with
      | _ :: _ => if content = [] then none else some content
      | [] => none
    else none
  | [] => none

/-- Regex alternative `'([^']+)'`: a nonempty single-quoted run. -/
def altSQ (cs : List Char) : Option (List Char) :=
  match cs with
  | c :: rest =>
    if c = '\'' then
      let content := rest.takeWhile (fun x => x ≠ '\'')
      match rest.dropWhile (fun x => x ≠ '\'') with
      | _ :: _ => if content = [] then none else some content
      | [] => none
    else none
  | [] => none

/-- Character class `[\-\d.]` of the JSON-ish pattern. -/
def numLitChar (c : Char) : Bool := isAsciiDigit c || c == '-' || c == '.'

/-- Value produced for a `[\-\d.]+` match (`page.tsx` lines 106–109):
`Number(m[3])` if it is not `NaN`, otherwise the literal string. -/
def numOrStr (run : List Char) : JsonValue :=
  match jsNumber (String.mk run) with
  | some q => .num q
  | none => .str (String.mk run)

/-- The value group of the JSON-ish pattern
`(?:"([^"]+)"|'([^']+)'|([\-\d.]+)|(true|false)|null)` with the result
mapping of lines 104–111: group 1 and 2 yield the quoted content as a
string, group 3 yields `numOrStr`, group 4 yields the boolean
(`m[4].toLowerCase() === "true"`), the bare `null` alternative yields the
JSON null value.  Alternatives are tried in pattern order; `true`, `false`
and `null` match case-insensitively because of the `i` flag. -/
def jsonishValueAlt (cs : List Char) : Option JsonValue :=
  match altDQ cs with
  | some content => some (.str (String.mk content))
  | none =>
    match altSQ cs with
    | some content => some (.str (String.mk content))
    | none =>
      let run := cs.takeWhile numLitChar
      if run ≠ [] then some (numOrStr run)
      else match stripCI "true".data cs with
        | some _ => some (.bool true)
        | none =>
          match stripCI "false".data cs with
          | some _ => some (.bool false)
          | none =>
            match stripCI "null".data cs with
            | some _ => some .null
            | none => none

/-- Anchored matcher for the JSON-ish pattern of `page.tsx` line 101:
`"<escaped key>"\s*:\s*(?:"([^"]+)"|'([^']+)'|([\-\d.]+)|(true|false)|null)`
with the `i` flag: a double quote, the key (case-insensitive, literal),
a double quote, optional whitespace, a colon, optional whitespace, then the
value group. -/
def jsonishAt (key : List Char) (cs : List Char) : Option JsonValue :=
  match cs with
  | c :: rest =>
    if c = '"' then
      match stripCI key rest with
      | some (c2 :: r2) =>
        if c2 = '"' then
          match r2.dropWhile jsWSChar with
          | c3 :: r3 => if c3 = ':' then jsonishValueAlt (r3.dropWhile jsWSChar) else none
          | [] => none
        else none
      | _ => none
    else none
  | [] => none

/-- Leftmost match of the JSON-ish pattern over the whole text
(`input.match(jsonishRe)`, `page.tsx` line 102). -/
def jsonishFind (key : List Char) (input : List Char) : Option JsonValue :=
  scanFirst (jsonishAt key) input

/-- The strict-JSON lookup of `searchJsonLike` (`page.tsx` lines 91–95):
a key containing a dot goes through `getByPath`, otherwise a direct
top-level field lookup that requires the parsed value to be a mapping. -/
def strictLookup (parsed : JsonValue) (key : String) : Option JsonValue :=
  if key.data.contains '.' then getByPath parsed key
  else match parsed with
    | .obj fs => jsLookup fs key
    | _ => none

/-- The strict branch of `searchJsonLike` (`page.tsx` lines 89–97): parse,
look the key up, and return the value only when it is defined and
`typeof val !== "object"` (line 96) — which excludes JavaScript `null` as
well as composites. -/
def strictResult (input key : String) : Option JsonValue :=
  match tryParseJson input with
  | some parsed =>
    (match strictLookup parsed key with
     | some v => if isNonNullScalar v then some v else none
     | none => none)
  | none => none

/-- Embedding of `searchJsonLike` (`page.tsx` lines 87–112): the strict
JSON lookup, otherwise the JSON-ish regex fallback over the raw input. -/
def searchJsonLike (input key : String) : Option JsonValue :=
  match strictResult input key with
  | some v => some v
  | none => jsonishFind key.data input.data

example : searchJsonLike "\x7b\"eid\":\"A1\"\x7d" "eid" = some (.str "A1") := rfl
example : searchJsonLike "\x7b\"eid\":\"A1\"\x7d eid=B2" "eid" = some (.str "A1") := rfl
example : searchJsonLike "\"EID\": \"x\"" "eid" = some (.str "x") := rfl
example : searchJsonLike "\x7b\"user\":\x7b\"id\":42\x7d\x7d" "user" = none := rfl
example : searchJsonLike "\x7b\"user\":\x7b\"id\":42\x7d\x7d" "user.id" = some (.num 42) := rfl
example : searchJsonLike "\x7b\"k\":null\x7d" "k" = some .null := rfl
example : searchJsonLike "\x7b\"K\":\"zzz\",\"k\":null\x7d" "k" = some (.str "zzz") := rfl
example : searchJsonLike "\"k\": 1.2.3" "k" = some (.str "1.2.3") := rfl
example : searchJsonLike "\"k\": -" "k" = some (.str "-") := rfl
example : searchJsonLike "\"k\": 12.5x" "k" = some (.num (mkRat 25 2)) := rfl
example : searchJsonLike "\"k\": TRUE" "k" = some (.bool true) := rfl
example : searchJsonLike "\"k\": FaLsE" "k" = some (.bool false) := rfl
example : searchJsonLike "\"k\": NULL" "k" = some .null := rfl
example : searchJsonLike "\"k\": 'abc'" "k" = some (.str "abc") := rfl
example : searchJsonLike "x \"k\":\x7b\x7d junk \"k\": 5" "k" = some (.num 5) := rfl
example : searchJsonLike "eid=77" "eid" = none := rfl

/-! ## Model of `decodeURIComponent` (used by `decodeMaybe`, lines 52–58) -/

/-- Core of the ECMAScript `Decode` abstract operation with an empty
reserved set: percent escapes are decoded as UTF-8 byte sequences whose
continuation bytes must themselves be written as percent escapes; any
malformed escape, malformed UTF-8 sequence, overlong encoding, surrogate
code point or out-of-range code point throws (`none`). -/
def uriDecode : Nat → List Char → Option (List Char)
  | 0, _ => none
  | _ + 1, [] => some []
  | fuel + 1, '%' :: rest =>
    (match rest with
     | a :: b :: r =>
       (match hexVal a, hexVal b with
        | some ha, some hb =>
          let x := 16 * ha + hb
          if x < 0x80 then (uriDecode fuel r).map (fun l => Char.ofNat x :: l)
          else if 0xc2 ≤ x ∧ x ≤ 0xdf then
            match r with
            | '%' :: c :: d :: r2 =>
              (match hexVal c, hexVal d with
               | some hc, some hd =>
                 let y := 16 * hc + hd
                 if 0x80 ≤ y ∧ y ≤ 0xbf then
                   (uriDecode fuel r2).map (fun l => Char.ofNat ((x - 0xc0) * 64 + (y - 0x80)) :: l)
                 else none
               | _, _ => none)
            | _ => none
          else if 0xe0 ≤ x ∧ x ≤ 0xef then
            match r with
            | '%' :: c :: d :: '%' :: e :: f :: r2 =>
              (match hexVal c, hexVal d, hexVal e, hexVal f with
               | some hc, some hd, some he, some hf =>
                 let y := 16 * hc + hd
                 let z := 16 * he + hf
                 let cp := (x - 0xe0) * 4096 + (y - 0x80) * 64 + (z - 0x80)
                 if (0x80 ≤ y ∧ y ≤ 0xbf) ∧ (0x80 ≤ z ∧ z ≤ 0xbf) ∧ 0x800 ≤ cp ∧
                    ¬(0xd800 ≤ cp ∧ cp ≤ 0xdfff) then
                   (uriDecode fuel r2).map (fun l => Char.ofNat cp :: l)
                 else none
               | _, _, _, _ => none)
            | _ => none
          else if 0xf0 ≤ x ∧ x ≤ 0xf4 then
            match r with
            | '%' :: c :: d :: '%' :: e :: f :: '%' :: g :: h :: r2 =>
              (match hexVal c, hexVal d, hexVal e, hexVal f, hexVal g, hexVal h with
               | some hc, some hd, some he, some hf, some hg, some hh =>
                 let y := 16 * hc + hd
                 let z := 16 * he + hf
                 let w := 16 * hg + hh
                 let cp := (x - 0xf0) * 262144 + (y - 0x80) * 4096 + (z - 0x80) * 64 + (w - 0x80)
                 if (0x80 ≤ y ∧ y ≤ 0xbf) ∧ (0x80 ≤ z ∧ z ≤ 0xbf) ∧ (0x80 ≤ w ∧ w ≤ 0xbf) ∧
                    0x10000 ≤ cp ∧ cp ≤ 0x10ffff then
                   (uriDecode fuel r2).map (fun l => Char.ofNat cp :: l)
                 else none
               | _, _, _, _, _, _ => none)
            | _ => none
          else none
        | _, _ => none)
     | _ => none)
  | fuel + 1, c :: rest => (uriDecode fuel rest).map (fun l => c :: l)

/-- Model of the JavaScript `decodeURIComponent` built-in; `none` models a
thrown `URIError`. -/
def jsDecodeURIComponent (s : String) : Option String :=
  (uriDecode (s.data.length + 1) s.data).map String.mk

/-- Embedding of `decodeMaybe` (`page.tsx` lines 52–58):
`decodeURIComponent` with a thrown error caught, returning the argument
unchanged. -/
def decodeMaybe (s : String) : String :=
  match jsDecodeURIComponent s with
  | some d => d
  | none => s

example : decodeMaybe "abc%20def" = "abc def" := rfl
example : decodeMaybe "abc def" = "abc def" := rfl
example : decodeMaybe "%E2%82%AC" = "€" := rfl
example : decodeMaybe "%" = "%" := rfl
example : decodeMaybe "%E0%A4%A" = "%E0%A4%A" := rfl
example : decodeMaybe "%C0%80" = "%C0%80" := rfl

/-! ## Model of `URLSearchParams` -/

/-- UTF-8 encoding of one character. -/
def utf8EncodeChar (c : Char) : List Nat :=
  let n := c.toNat
  if n < 0x80 then [n]
  else if n < 0x800 then [0xc0 + n / 64, 0x80 + n % 64]
  else if n < 0x10000 then [0xe0 + n / 4096, 0x80 + (n / 64) % 64, 0x80 + n % 64]
  else [0xf0 + n / 262144, 0x80 + (n / 4096) % 64, 0x80 + (n / 64) % 64, 0x80 + n % 64]

/-- Lenient UTF-8 decoding with U+FFFD replacement for invalid sequences,
as the WHATWG `application/x-www-form-urlencoded` parser performs. -/
def utf8DecodeLoose : Nat → List Nat → List Char
  | 0, _ => []
  | _ + 1, [] => []
  | fuel + 1, b :: rest =>
    if b < 0x80 then Char.ofNat b :: utf8DecodeLoose fuel rest
    else if 0xc2 ≤ b ∧ b ≤ 0xdf then
      match rest with
      | b2 :: r2 =>
        if 0x80 ≤ b2 ∧ b2 ≤ 0xbf then
          Char.ofNat ((b - 0xc0) * 64 + (b2 - 0x80)) :: utf8DecodeLoose fuel r2
        else Char.ofNat 0xfffd :: utf8DecodeLoose fuel rest
      | [] => [Char.ofNat 0xfffd]
    else if 0xe0 ≤ b ∧ b ≤ 0xef then
      match rest with
      | b2 :: b3 :: r2 =>
        let cp := (b - 0xe0) * 4096 + (b2 - 0x80) * 64 + (b3 - 0x80)
        if (0x80 ≤ b2 ∧ b2 ≤ 0xbf) ∧ (0x80 ≤ b3 ∧ b3 ≤ 0xbf) ∧ 0x800 ≤ cp ∧
           ¬(0xd800 ≤ cp ∧ cp ≤ 0xdfff) then
          Char.ofNat cp :: utf8DecodeLoose fuel r2
        else Char.ofNat 0xfffd :: utf8DecodeLoose fuel rest
      | _ => Char.ofNat 0xfffd :: utf8DecodeLoose fuel rest
    else if 0xf0 ≤ b ∧ b ≤ 0xf4 then
      match rest with
      | b2 :: b3 :: b4 :: r2 =>
        let cp := (b - 0xf0) * 262144 + (b2 - 0x80) * 4096 + (b3 - 0x80) * 64 + (b4 - 0x80)
        if (0x80 ≤ b2 ∧ b2 ≤ 0xbf) ∧ (0x80 ≤ b3 ∧ b3 ≤ 0xbf) ∧ (0x80 ≤ b4 ∧ b4 ≤ 0xbf) ∧
           0x10000 ≤ cp ∧ cp ≤ 0x10ffff then
          Char.ofNat cp :: utf8DecodeLoose fuel r2
        else Char.ofNat 0xfffd :: utf8DecodeLoose fuel rest
      | _ => Char.ofNat 0xfffd :: utf8DecodeLoose fuel rest
    else Char.ofNat 0xfffd :: utf8DecodeLoose fuel rest

/-- Byte-level decoding step of the `application/x-www-form-urlencoded`
parser: `+` becomes a space, a valid `%hh` escape becomes its byte, any
other character contributes its UTF-8 bytes; nothing throws. -/
def formBytes : List Char → List Nat
  | [] => []
  | '+' :: r => 0x20 :: formBytes r
  | '%' :: a :: b :: r =>
    (match hexVal a, hexVal b with
     | some ha, some hb => (16 * ha + hb) :: formBytes r
     | _, _ => utf8EncodeChar '%' ++ formBytes (a :: b :: r))
  | '%' :: r => utf8EncodeChar '%' ++ formBytes r
  | c :: r => utf8EncodeChar c ++ formBytes r

/-- Full `application/x-www-form-urlencoded` string decoding. -/
def formDecodeStr (cs : List Char) : String :=
  let bytes := formBytes cs
  String.mk (utf8DecodeLoose (bytes.length + 1) bytes)

/-- Splits a character list at every occurrence of the separator. -/
def splitOn1 (sep : Char) : List Char → List Char → List (List Char)
  | [], acc => [acc.reverse]
  | c :: rest, acc =>
    if c = sep then acc.reverse :: splitOn1 sep rest []
    else splitOn1 sep rest (c :: acc)

/-- Splits at the first `=`; a piece without `=` is all name, empty value. -/
def splitFirstEq : List Char → (List Char × List Char)
  | [] => ([], [])
  | '=' :: rest => ([], rest)
  | c :: rest =>
    let p := splitFirstEq rest
    (c :: p.1, p.2)

/-- Model of the WHATWG `application/x-www-form-urlencoded` parser: split on
`&`, drop empty pieces, split each piece at its first `=`, decode names and
values. -/
def formPairs (query : List Char) : List (String × String) :=
  ((splitOn1 '&' query []).filter (fun p => p ≠ [])).map (fun piece =>
    let nv := splitFirstEq piece
    (formDecodeStr nv.1, formDecodeStr nv.2))

/-- Model of `URLSearchParams.prototype.get`: the value of the first pair
whose decoded name equals the key exactly (case-sensitive), else null. -/
def formGet (query : List Char) (key : String) : Option String :=
  match (formPairs query).find? (fun p => p.1 == key) with
  | some p => some p.2
  | none => none

/-- The `URLSearchParams` string constructor strips one leading `?`. -/
def stripLeadQ : List Char → List Char
  | '?' :: r => r
  | cs => cs

example : formGet "eid=hello&x=2".data "eid" = some "hello" := rfl
example : formGet "eid=abc%20def&x=1".data "eid" = some "abc def" := rfl
example : formGet "a+b=c+d".data "a b" = some "c d" := rfl
example : formGet "eid".data "eid" = some "" := rfl
example : formGet "x=1".data "eid" = none := rfl

/-! ## Model of the WHATWG `URL` constructor (query extraction only) -/

/-- Scheme characters after the first: ASCII alphanumeric, `+`, `-`, `.`. -/
def schemeChar (c : Char) : Bool :=
  isAsciiAlpha c || isAsciiDigit c || c == '+' || c == '-' || c == '.'

/-- Parses `scheme:` at the head: an ASCII alpha followed by scheme
characters and a colon; returns the lowercased scheme and the rest. -/
def takeScheme (cs : List Char) : Option (List Char × List Char) :=
  match cs with
  | [] => none
  | c :: rest =>
    if isAsciiAlpha c then
      match rest.dropWhile schemeChar with
      | ':' :: r3 => some ((c :: rest.takeWhile schemeChar).map asciiLower, r3)
      | _ => none
    else none

/-- Code points the WHATWG URL parser forbids in a host. -/
def forbiddenHostChar (c : Char) : Bool :=
  c.toNat == 0 || c.toNat == 9 || c.toNat == 10 || c.toNat == 13 ||
  c == ' ' || c == '#' || c == '%' || c == '/' || c == ':' || c == '<' ||
  c == '>' || c == '?' || c == '@' || c == '[' || c == '\\' || c == ']' ||
  c == '^' || c == '|'

/-- The part of an authority after the last `@` (the host and port;
everything before is userinfo). -/
def afterLastAt (cs : List Char) : List Char :=
  (cs.reverse.takeWhile (fun c => c ≠ '@')).reverse

/-- The query of the remainder of a URL: the text after the first `?` that
precedes any `#`. -/
def queryOf (cs : List Char) : List Char :=
  ((cs.takeWhile (fun c => c ≠ '#')).dropWhile (fun c => c ≠ '?')).drop 1

/-- Model of `new URL(s)`, reduced to what the source consumes: `none` when
the constructor throws, otherwise the raw query string (without `?`) that
`searchParams` is built from.  Scheme-relative and path details that cannot
change the query are simplified; special schemes require a syntactically
acceptable non-empty host, non-special schemes take an opaque path.  IPv6
host brackets and host punycoding are not modelled (no claim exercises
them). -/
def parseJsURL (cs0 : List Char) : Option (List Char) :=
  let stripped := ((cs0.dropWhile (fun c => c.toNat ≤ 0x20)).reverse.dropWhile
      (fun c => c.toNat ≤ 0x20)).reverse
  let cs := stripped.filter (fun c => !(c.toNat == 9 || c.toNat == 10 || c.toNat == 13))
  match takeScheme cs with
  | none => none
  | some (scheme, rest) =>
    if scheme = "http".data ∨ scheme = "https".data ∨ scheme = "ws".data ∨
       scheme = "wss".data ∨ scheme = "ftp".data then
      let r1 := rest.dropWhile (fun c => c == '/' || c == '\\')
      let auth := r1.takeWhile (fun c => !(c == '/' || c == '\\' || c == '?' || c == '#'))
      let after := r1.dropWhile (fun c => !(c == '/' || c == '\\' || c == '?' || c == '#'))
      let hostport := afterLastAt auth
      let host := if hostport.contains ':' then
          ((hostport.reverse.dropWhile (fun c => c ≠ ':')).drop 1).reverse
        else hostport
      let port := if hostport.contains ':' then
          some ((hostport.reverse.takeWhile (fun c => c ≠ ':')).reverse)
        else none
      let portOk := match port with
        | none => true
        | some p => p.all isAsciiDigit && (p.isEmpty || natOfDigits p ≤ 65535)
      if !host.isEmpty && host.all (fun c => !forbiddenHostChar c) && portOk then
        some (queryOf after)
      else none
    else some (queryOf rest)

example : parseJsURL "https://example.com/?eid=abc%20def&x=1".data = some "eid=abc%20def&x=1".data := rfl
example : parseJsURL "eid=hello&x=2".data = none := rfl
example : parseJsURL "name: John; eid: 77".data = some [] := rfl
example : parseJsURL "http://".data = none := rfl
example : parseJsURL "http://u:p@h:8080/a?q=1#f?x".data = some "q=1".data := rfl
example : parseJsURL "mailto:a@b?subject=hi".data = some "subject=hi".data := rfl
example : parseJsURL "totally unrelated text".data = none := rfl

/-! ## Embedding of `searchUrlLike` (`page.tsx` lines 60–85) -/

/-- The value group of the URL fallback pattern
`("([^"]+)"|'([^']+)'|([^\s&;,]+))`: alternatives in order, the unquoted
run excludes whitespace, `&`, `;`, `,`. -/
def urlValueAlt (cs : List Char) : Option (List Char) :=
  match altDQ cs with
  | some content => some content
  | none =>
    match altSQ cs with
    | some content => some content
    | none =>
      let run := cs.takeWhile (fun c => !(jsWSChar c || c == '&' || c == ';' || c == ','))
      if run ≠ [] then some run else none

/-- Body of the URL fallback pattern after its leading-context group:
`<key>\s*(?:=|:)\s*(value)`, the key matched case-insensitively. -/
def urlBodyAt (key : List Char) (cs : List Char) : Option (List Char) :=
  match stripCI key cs with
  | some r1 =>
    (match r1.dropWhile jsWSChar with
     | '=' :: r3 => urlValueAlt (r3.dropWhile jsWSChar)
     | ':' :: r3 => urlValueAlt (r3.dropWhile jsWSChar)
     | _ => none)
  | none => none

/-- Scan for the URL fallback pattern at start positions with a leading
context character from `[?&;,\s]`. -/
def urlScanTail (key : List Char) : List Char → Option (List Char)
  | [] => none
  | c :: rest =>
    if c == '?' || c == '&' || c == ';' || c == ',' || jsWSChar c then
      match urlBodyAt key rest with
      | some v => some v
      | none => urlScanTail key rest
    else urlScanTail key rest

/-- Leftmost match of the URL fallback pattern of `page.tsx` line 78:
`(?:^|[?&;,\s])<escaped key>\s*(?:=|:)\s*("([^"]+)"|'([^']+)'|([^\s&;,]+))`
with the `i` flag; the result is `m[2] || m[3] || m[4]` (the matched value
group, whose alternatives are all non-empty). -/
def urlLikeFind (key : List Char) (cs : List Char) : Option (List Char) :=
  match urlBodyAt key cs with
  | some v => some v
  | none => urlScanTail key cs

/-- `input.trim().replace(/^[?#]/, "")` (`page.tsx` line 71): strip one
leading `?` or `#` from the already trimmed input. -/
def stripHook : List Char → List Char
  | '?' :: r => r
  | '#' :: r => r
  | cs => cs

/-- Steps 2 and 3 of `searchUrlLike` (`page.tsx` lines 70–82), applied to
the trimmed input: parse the hook-stripped text as a raw query string and
look the key up, else run the delimiter regex on it; both results pass
through `decodeMaybe`. -/
def urlSteps23 (t : List Char) (key : String) : Option String :=
  let raw := stripHook t
  match formGet (stripLeadQ raw) key with
  | some val => some (decodeMaybe val)
  | none =>
    match urlLikeFind key.data raw with
    | some v => some (decodeMaybe (String.mk v))
    | none => none

/-- Embedding of `searchUrlLike` (`page.tsx` lines 60–85): (1) parse the
trimmed input as a full URL and look the key up in its query parameters;
(2) otherwise strip one leading `?` or `#` and parse the remainder as a
query string; (3) otherwise the delimiter-based regex.  Every returned
value passes through `decodeMaybe`. -/
def searchUrlLike (input key : String) : Option String :=
  let t := jsTrimList input.data
  let step1 : Option String :=
    match parseJsURL t with
    | some query => formGet query key
    | none => none
  match step1 with
  | some val => some (decodeMaybe val)
  | none => urlSteps23 t key

example : searchUrlLike "https://example.com/?eid=abc%20def&x=1" "eid" = some "abc def" := rfl
example : searchUrlLike "eid=hello&x=2" "eid" = some "hello" := rfl
example : searchUrlLike "?eid=5" "eid" = some "5" := rfl
example : searchUrlLike "name: John; eid: 77" "eid" = some "77" := rfl
example : searchUrlLike "\x7b\"user\":\x7b\"id\":42\x7d\x7d" "user" = none := rfl
example : searchUrlLike "totally unrelated text" "missing_key" = none := rfl
example : searchUrlLike "https://e.com/?eid=%2520" "eid" = some " " := rfl
example : searchUrlLike "EID=7" "eid" = some "7" := rfl

/-! ## Generic fallback and orchestrator (`extractValue`, lines 114–130) -/

/-- The value group of the generic pattern
`("([^"]+)"|'([^']+)'|([^\s,;|]+))`: alternatives in order, the unquoted
run excludes whitespace, `,`, `;`, `|`. -/
def genericValueAlt (cs : List Char) : Option (List Char) :=
  match altDQ cs with
  | some content => some content
  | none =>
    match altSQ cs with
    | some content => some content
    | none =>
      let run := cs.takeWhile (fun c => !(jsWSChar c || c == ',' || c == ';' || c == '|'))
      if run ≠ [] then some run else none

/-- Body of the generic pattern after its leading-context group:
`<key>\s*(?:=|:)\s*(value)`, the key matched case-insensitively. -/
def genericBodyAt (key : List Char) (cs : List Char) : Option (List Char) :=
  match stripCI key cs with
  | some r1 =>
    (match r1.dropWhile jsWSChar with
     | '=' :: r3 => genericValueAlt (r3.dropWhile jsWSChar)
     | ':' :: r3 => genericValueAlt (r3.dropWhile jsWSChar)
     | _ => none)
  | none => none

/-- Scan for the generic pattern at start positions with a leading context
character from `[\s,;|]`. -/
def genericScanTail (key : List Char) : List Char → Option (List Char)
  | [] => none
  | c :: rest =>
    if jsWSChar c || c == ',' || c == ';' || c == '|' then
      match genericBodyAt key rest with
      | some v => some v
      | none => genericScanTail key rest
    else genericScanTail key rest

/-- Leftmost match of the generic pattern of `page.tsx` line 125:
`(?:^|[\s,;|])<escaped key>\s*(?:=|:)\s*("([^"]+)"|'([^']+)'|([^\s,;|]+))`
with the `i` flag; the result is `m[2] || m[3] || m[4]`. -/
def genericFind (key : List Char) (cs : List Char) : Option (List Char) :=
  match genericBodyAt key cs with
  | some v => some v
  | none => genericScanTail key cs

/-- Embedding of `extractValue` (`page.tsx` lines 114–130): absent for a
key that is empty after trimming, then the three strategies in order —
JSON-like, URL/query-like, generic `key:value` — returning the first
defined result. -/
def extractValue (input key : String) : Option JsonValue :=
  if jsTrimList key.data = [] then none
  else match searchJsonLike input key with
  | some j => some j
  | none =>
    match searchUrlLike input key with
    | some u => some (.str u)
    | none =>
      match genericFind key.data input.data with
      | some g => some (.str (String.mk g))
      | none => none

/-! Sanity checks: the testable properties listed in the specification. -/

example : extractValue "\x7b\"eid\":\"A1\"\x7d eid=B2" "eid" = some (.str "A1") := rfl
example : extractValue "\x7b\"user\":\x7b\"id\":42\x7d\x7d" "user.id" = some (.num 42) := rfl
example : extractValue "\x7b\"items\":[10,20,30]\x7d" "items.1" = some (.num 20) := rfl
example : extractValue "https://example.com/?eid=abc%20def&x=1" "eid" = some (.str "abc def") := rfl
example : extractValue "eid=hello&x=2" "eid" = some (.str "hello") := rfl
example : extractValue "name: John; eid: 77" "eid" = some (.str "77") := rfl
example : extractValue "totally unrelated text" "missing_key" = none := rfl
example : extractValue "\x7b\"user\":\x7b\"id\":42\x7d\x7d" "user" = none := rfl
example : extractValue "some text" "" = none := rfl
example : extractValue "eid=77" "eid" = some (.str "77") := rfl
example : extractValue "a|eid:'x y'|b" "eid" = some (.str "x y") := rfl

/-! ## Claim theorems -/

/-- Claim C4: for every input string and every key that is empty or
whitespace-only, `extractValue input key` returns absent immediately,
regardless of the input (`page.tsx` lines 114–115). -/
theorem extractValue_blank_key (input key : String) (hk : jsTrimList key.data = []) :
    extractValue input key = none := by
  unfold extractValue
  simp [hk]

theorem extractValue_blank_key_witness :
    jsTrimList " \t ".data = [] ∧ extractValue "eid=77" " \t " = none :=
  ⟨by decide, extractValue_blank_key "eid=77" " \t " (by decide)⟩

/-- Claim C1: for every input and every key non-empty after trimming,
`extractValue` consults the strategies in the fixed order JSON-like, then
URL/query, then generic fallback, and returns the first non-absent result;
a later strategy is never consulted once an earlier one produced a value
(`page.tsx` lines 114–130). -/
theorem extractValue_strategy_order (input key : String) (hk : jsTrimList key.data ≠ []) :
    (∀ v, searchJsonLike input key = some v → extractValue input key = some v) ∧
    (searchJsonLike input key = none → ∀ u, searchUrlLike input key = some u →
      extractValue input key = some (JsonValue.str u)) ∧
    (searchJsonLike input key = none → searchUrlLike input key = none →
      extractValue input key =
        (genericFind key.data input.data).map (fun g => JsonValue.str (String.mk g))) := by
  refine ⟨?_, ?_, ?_⟩
  · intro v hv
    unfold extractValue
    simp [hk, hv]
  · intro hj u hu
    unfold extractValue
    simp [hk, hj, hu]
  · intro hj hu
    unfold extractValue
    simp [hk, hj, hu]
    cases genericFind key.data input.data <;> simp

theorem extractValue_strategy_order_witness :
    jsTrimList "eid".data ≠ [] ∧
    searchJsonLike "\x7b\"eid\":\"A1\"\x7d eid=B2" "eid" = some (JsonValue.str "A1") ∧
    extractValue "\x7b\"eid\":\"A1\"\x7d eid=B2" "eid" = some (JsonValue.str "A1") :=
  ⟨by decide, rfl,
    (extractValue_strategy_order "\x7b\"eid\":\"A1\"\x7d eid=B2" "eid" (by decide)).1
      (JsonValue.str "A1") rfl⟩

/-- Claim C10: a non-absent result of the URL/query strategy or of the
generic fallback is always a string; number, boolean and null results can
only come from the JSON-like strategy (`page.tsx` lines 60–85, 124–129). -/
theorem fallback_results_are_strings (input key : String) (v : JsonValue)
    (hj : searchJsonLike input key = none) (hv : extractValue input key = some v) :
    ∃ s, v = JsonValue.str s := by
  unfold extractValue at hv
  by_cases hk : jsTrimList key.data = []
  · simp [hk] at hv
  · rw [if_neg hk, hj] at hv
    cases hu : searchUrlLike input key with
    | some u =>
      rw [hu] at hv
      exact ⟨u, (Option.some.inj hv).symm⟩
    | none =>
      rw [hu] at hv
      cases hg : genericFind key.data input.data with
      | some g =>
        rw [hg] at hv
        exact ⟨String.mk g, (Option.some.inj hv).symm⟩
      | none =>
        rw [hg] at hv
        exact absurd hv (by simp)

theorem fallback_results_are_strings_witness :
    searchJsonLike "eid=77" "eid" = none ∧
    extractValue "eid=77" "eid" = some (JsonValue.str "77") ∧
    ∃ s, JsonValue.str "77" = JsonValue.str s :=
  ⟨rfl, rfl, fallback_results_are_strings "eid=77" "eid" (JsonValue.str "77") rfl rfl⟩

/-- Claim C9: no strategy lets a failure escape: a failed JSON parse leaves
the JSON-like strategy in its regex fallback (and the strategy yields
absent if that fails too), a failed URL parse leaves `searchUrlLike` in its
query-string steps, and a failed percent-decoding makes `decodeMaybe`
return its argument unchanged.  In the embedding every function is total,
which is the image of "no exception propagates": `tryParseJson`,
`parseJsURL` and `jsDecodeURIComponent` return `none` exactly where the
JavaScript built-ins throw, and each `none` is consumed locally below. -/
theorem failures_become_strategy_absent :
    (∀ input key : String, tryParseJson input = none →
      searchJsonLike input key = jsonishFind key.data input.data) ∧
    (∀ input key : String, tryParseJson input = none →
      jsonishFind key.data input.data = none → searchJsonLike input key = none) ∧
    (∀ input key : String, parseJsURL (jsTrimList input.data) = none →
      searchUrlLike input key = urlSteps23 (jsTrimList input.data) key) ∧
    (∀ s : String, jsDecodeURIComponent s = none → decodeMaybe s = s) := by
  refine ⟨?_, ?_, ?_, ?_⟩
  · intro input key h
    unfold searchJsonLike strictResult
    simp [h]
  · intro input key h h2
    unfold searchJsonLike strictResult
    simp [h, h2]
  · intro input key h
    unfold searchUrlLike
    simp [h]
  · intro s h
    unfold decodeMaybe
    simp [h]

theorem failures_become_strategy_absent_witness :
    (tryParseJson "eid=77" = none ∧
      searchJsonLike "eid=77" "k" = jsonishFind "k".data "eid=77".data) ∧
    (tryParseJson "plain text" = none ∧ jsonishFind "k".data "plain text".data = none ∧
      searchJsonLike "plain text" "k" = none) ∧
    (parseJsURL (jsTrimList "eid 77".data) = none ∧
      searchUrlLike "eid 77" "eid" = urlSteps23 (jsTrimList "eid 77".data) "eid") ∧
    (jsDecodeURIComponent "%GG" = none ∧ decodeMaybe "%GG" = "%GG") :=
  ⟨⟨rfl, failures_become_strategy_absent.1 "eid=77" "k" rfl⟩,
   ⟨rfl, rfl, failures_become_strategy_absent.2.1 "plain text" "k" rfl rfl⟩,
   ⟨rfl, failures_become_strategy_absent.2.2.1 "eid 77" "eid" rfl⟩,
   ⟨rfl, failures_become_strategy_absent.2.2.2 "%GG" rfl⟩⟩

/-! Helper lemmas about the matchers (shared by several claims). -/

theorem scanFirst_characterisation {α : Type} (f : List Char → Option α) :
    ∀ (l : List Char) (v : α), scanFirst f l = some v →
      ∃ n, n ≤ l.length ∧ f (l.drop n) = some v ∧ ∀ m, m < n → f (l.drop m) = none := by
  intro l
  induction l with
  | nil =>
    intro v h
    exact ⟨0, Nat.le_refl 0, h, fun m hm => absurd hm (Nat.not_lt_zero m)⟩
  | cons c rest ih =>
    intro v h
    unfold scanFirst at h
    cases hf : f (c :: rest) with
    | some w =>
      rw [hf] at h
      exact ⟨0, Nat.zero_le _, by simpa using hf.trans h, fun m hm => absurd hm (Nat.not_lt_zero m)⟩
    | none =>
      rw [hf] at h
      obtain ⟨n, hn, hfn, hprev⟩ := ih v h
      refine ⟨n + 1, Nat.succ_le_succ hn, hfn, ?_⟩
      intro m hm
      cases m with
      | zero => exact hf
      | succ m2 => exact hprev m2 (Nat.lt_of_succ_lt_succ hm)

theorem jsonishValueAlt_scalar (cs : List Char) (v : JsonValue)
    (h : jsonishValueAlt cs = some v) : isScalar v = true := by
  unfold jsonishValueAlt at h
  cases h1 : altDQ cs with
  | some content => rw [h1] at h; cases h; rfl
  | none =>
    rw [h1] at h
    cases h2 : altSQ cs with
    | some content => rw [h2] at h; cases h; rfl
    | none =>
      rw [h2] at h
      by_cases h3 : cs.takeWhile numLitChar ≠ []
      · rw [if_pos h3] at h
        cases h
        unfold numOrStr
        cases jsNumber (String.mk (cs.takeWhile numLitChar)) <;> rfl
      · rw [if_neg h3] at h
        cases h4 : stripCI "true".data cs with
        | some r => rw [h4] at h; cases h; rfl
        | none =>
          rw [h4] at h
          cases h5 : stripCI "false".data cs with
          | some r => rw [h5] at h; cases h; rfl
          | none =>
            rw [h5] at h
            cases h6 : stripCI "null".data cs with
            | some r => rw [h6] at h; cases h; rfl
            | none => rw [h6] at h; cases h

theorem jsonishAt_scalar (key cs : List Char) (v : JsonValue)
    (h : jsonishAt key cs = some v) : isScalar v = true := by
  unfold jsonishAt at h
  repeat first
    | exact jsonishValueAlt_scalar _ _ h
    | cases h
    | split at h

theorem jsonishFind_scalar (key input : List Char) (v : JsonValue)
    (h : jsonishFind key input = some v) : isScalar v = true := by
  obtain ⟨n, _, hf, _⟩ := scanFirst_characterisation (jsonishAt key) input v h
  exact jsonishAt_scalar key (input.drop n) v hf

theorem isScalar_of_isNonNullScalar (v : JsonValue) (h : isNonNullScalar v = true) :
    isScalar v = true := by
  cases v <;> first | rfl | cases h

theorem strictResult_scalar (input key : String) (v : JsonValue)
    (h : strictResult input key = some v) : isNonNullScalar v = true := by
  unfold strictResult at h
  split at h
  · split at h
    · split at h
      · cases h
        assumption
      · cases h
    · cases h
  · cases h

theorem searchJsonLike_scalar (input key : String) (v : JsonValue)
    (h : searchJsonLike input key = some v) : isScalar v = true := by
  unfold searchJsonLike at h
  split at h
  · cases h
    exact isScalar_of_isNonNullScalar _ (strictResult_scalar input key v (by assumption))
  · exact jsonishFind_scalar _ _ _ h

theorem isNonNullScalar_eq_false_of_composite (v : JsonValue) (h : isScalar v = false) :
    isNonNullScalar v = false := by
  cases v <;> simp_all [isScalar, isNonNullScalar]

/-- Claim C3: `extractValue` never returns a composite value; whenever
strict parsing succeeds and the key or dot-path resolves to an object or
array, the JSON-like strategy treats the match as absent and falls through
to its regex fallback (and in the `\x7b"user":\x7b"id":42\x7d\x7d` example
every downstream strategy misses, so the overall result is absent). -/
theorem extractValue_no_composite :
    (∀ input key : String, ∀ v, extractValue input key = some v → isScalar v = true) ∧
    (∀ input key : String, ∀ parsed v, tryParseJson input = some parsed →
      strictLookup parsed key = some v → isScalar v = false →
      searchJsonLike input key = jsonishFind key.data input.data) ∧
    extractValue "\x7b\"user\":\x7b\"id\":42\x7d\x7d" "user" = none := by
  refine ⟨?_, ?_, rfl⟩
  · intro input key v hv
    unfold extractValue at hv
    by_cases hk : jsTrimList key.data = []
    · simp [hk] at hv
    · rw [if_neg hk] at hv
      split at hv
      · cases hv
        exact searchJsonLike_scalar _ _ _ (by assumption)
      · split at hv
        · cases hv
          rfl
        · split at hv
          · cases hv
            rfl
          · cases hv
  · intro input key parsed v hp hl hcomp
    have hnn : isNonNullScalar v = false := isNonNullScalar_eq_false_of_composite v hcomp
    unfold searchJsonLike strictResult
    simp [hp, hl, hnn]

theorem extractValue_no_composite_witness :
    (extractValue "\"k\": NULL" "k" = some JsonValue.null ∧
      isScalar JsonValue.null = true) ∧
    (tryParseJson "\x7b\"user\":\x7b\"id\":42\x7d\x7d" =
        some (JsonValue.obj [("user", JsonValue.obj [("id", JsonValue.num 42)])]) ∧
      strictLookup (JsonValue.obj [("user", JsonValue.obj [("id", JsonValue.num 42)])]) "user" =
        some (JsonValue.obj [("id", JsonValue.num 42)]) ∧
      isScalar (JsonValue.obj [("id", JsonValue.num 42)]) = false ∧
      searchJsonLike "\x7b\"user\":\x7b\"id\":42\x7d\x7d" "user" =
        jsonishFind "user".data "\x7b\"user\":\x7b\"id\":42\x7d\x7d".data) :=
  ⟨⟨rfl, extractValue_no_composite.1 "\"k\": NULL" "k" JsonValue.null rfl⟩,
   ⟨rfl, rfl, rfl,
    extractValue_no_composite.2.1 "\x7b\"user\":\x7b\"id\":42\x7d\x7d" "user"
      (JsonValue.obj [("user", JsonValue.obj [("id", JsonValue.num 42)])])
      (JsonValue.obj [("id", JsonValue.num 42)]) rfl rfl rfl⟩⟩

/-! ## Claim C5: the path resolver against the specified walk -/

/-- Modelled from the spec (§4.1): the walk it describes for a parsed value
of any top-level shape — each segment fails on a null/absent current value,
indexes a sequence when the segment parses as an integer (failing
otherwise), looks a mapping up (missing keys fail), and fails on any other
current value; empty segments were already removed by `pathSegs`. -/
def specWalk : Option JsonValue → List String → Option JsonValue
  | cur, [] => cur
  | none, _ :: _ => none
  | some .null, _ :: _ => none
  | some (.arr xs), p :: ps =>
    (match jsIndex xs p with
     | none => none
     | some v => specWalk (some v) ps)
  | some (.obj fs), p :: ps =>
    (match jsLookup fs p with
     | none => none
     | some v => specWalk (some v) ps)
  | some _, _ :: _ => none

/-- Modelled from the spec (§4.1): resolve a dot-separated path against a
parsed value of any shape, skipping empty segments. -/
def specPathWalk (v : JsonValue) (path : String) : Option JsonValue :=
  specWalk (some v) (pathSegs path)

theorem walkPath_none (ps : List String) : walkPath none ps = none := by
  cases ps <;> rfl

theorem walkPath_eq_specWalk : ∀ (segs : List String) (cur : Option JsonValue),
    walkPath cur segs = specWalk cur segs := by
  intro segs
  induction segs with
  | nil =>
    intro cur
    cases cur with
    | none => rfl
    | some val => cases val <;> rfl
  | cons p ps ih =>
    intro cur
    match cur with
    | none => rfl
    | some .null => rfl
    | some (.str s) => rfl
    | some (.num q) => rfl
    | some (.bool b) => rfl
    | some (.arr xs) =>
      show walkPath (jsIndex xs p) ps = _
      cases h : jsIndex xs p with
      | none => simp [specWalk, h, walkPath_none]
      | some w => simp [specWalk, h, ih (some w)]
    | some (.obj fs) =>
      show walkPath (jsLookup fs p) ps = _
      cases h : jsLookup fs p with
      | none => simp [specWalk, h, walkPath_none]
      | some w => simp [specWalk, h, ih (some w)]

/-- Claim C5 (amended): the resolver walks exactly as the spec describes it
— empty segments skipped, null/absent fails, sequences index by
integer-parsing segments, mappings look fields up, anything else with a
segment left fails — but only when the top-level parsed value is a
mapping; `getByPath` fails immediately on every non-mapping top-level
value, including a top-level sequence (line 21 of `page.tsx`). -/
theorem getByPath_spec_walk :
    (∀ (v : JsonValue) (path : String), isObject v = true →
      getByPath v path = specPathWalk v path) ∧
    (∀ (v : JsonValue) (path : String), isObject v = false →
      getByPath v path = none) ∧
    (∀ (v : JsonValue) (p : String),
      getByPath v (String.mk ('.' :: p.data)) = getByPath v p) := by
  refine ⟨?_, ?_, ?_⟩
  · intro v path hobj
    unfold getByPath specPathWalk
    rw [if_pos hobj]
    exact walkPath_eq_specWalk _ _
  · intro v path hobj
    unfold getByPath
    rw [hobj]
    simp
  · intro v p
    unfold getByPath
    have hsegs : pathSegs (String.mk ('.' :: p.data)) = pathSegs p := by
      unfold pathSegs
      show ((splitDots ('.' :: p.data) []).filter (fun s => s ≠ "")) = _
      rw [show splitDots ('.' :: p.data) [] = "" :: splitDots p.data [] from rfl]
      simp
    rw [hsegs]

/-- Claim C5 counterexample: the claim requires the resolver to walk a
top-level sequence (segment `1` indexes it), but `getByPath` returns
absent for every non-mapping top-level value. -/
theorem getByPath_top_level_sequence_counterexample :
    specPathWalk (JsonValue.arr [.num 10, .num 20, .num 30]) "1" = some (JsonValue.num 20) ∧
    getByPath (JsonValue.arr [.num 10, .num 20, .num 30]) "1" = none :=
  ⟨rfl, rfl⟩

theorem getByPath_spec_walk_witness :
    (isObject (JsonValue.obj [("a", JsonValue.arr [JsonValue.num 1, JsonValue.num 2])]) = true ∧
      getByPath (JsonValue.obj [("a", JsonValue.arr [JsonValue.num 1, JsonValue.num 2])]) "a.1" =
        specPathWalk (JsonValue.obj [("a", JsonValue.arr [JsonValue.num 1, JsonValue.num 2])]) "a.1") ∧
    (isObject (JsonValue.arr [JsonValue.num 7]) = false ∧
      getByPath (JsonValue.arr [JsonValue.num 7]) "0" = none) ∧
    getByPath (JsonValue.obj [("a", JsonValue.num 1)]) (String.mk ('.' :: "a".data)) =
      getByPath (JsonValue.obj [("a", JsonValue.num 1)]) "a" :=
  ⟨⟨rfl, getByPath_spec_walk.1 (JsonValue.obj [("a", JsonValue.arr [JsonValue.num 1, JsonValue.num 2])]) "a.1" rfl⟩,
   ⟨rfl, getByPath_spec_walk.2.1 (JsonValue.arr [JsonValue.num 7]) "0" rfl⟩,
   getByPath_spec_walk.2.2 (JsonValue.obj [("a", JsonValue.num 1)]) "a"⟩

/-! ## Claim C2: strict scalar field preservation -/

/-- Claim C2 counterexample: for the well-formed JSON object
`\x7b"K":"zzz","k":null\x7d`, whose top-level field `k` holds JSON null, the
claim demands that `extractValue(input, "k")` return the null value; the
strict branch drops the null (`typeof null === "object"`, line 96), and the
case-insensitive JSON-ish fallback then matches `"K":"zzz"` first, so the
code returns the string `"zzz"` instead. -/
theorem json_null_field_counterexample :
    tryParseJson "\x7b\"K\":\"zzz\",\"k\":null\x7d" =
      some (JsonValue.obj [("K", JsonValue.str "zzz"), ("k", JsonValue.null)]) ∧
    jsLookup [("K", JsonValue.str "zzz"), ("k", JsonValue.null)] "k" = some JsonValue.null ∧
    extractValue "\x7b\"K\":\"zzz\",\"k\":null\x7d" "k" ≠ some JsonValue.null := by
  refine ⟨rfl, rfl, ?_⟩
  intro hc
  have h2 : extractValue "\x7b\"K\":\"zzz\",\"k\":null\x7d" "k" =
      some (JsonValue.str "zzz") := rfl
  rw [h2] at hc
  injection hc with h3
  exact JsonValue.noConfusion h3

/-- Claim C2 (amended): for every well-formed JSON object input with a
top-level field `k: v` where `k` contains no dot and is non-blank, a
string, number or boolean value `v` is returned unchanged with its type
preserved.  A JSON null field is NOT returned by the strict lookup — the
value falls through to the JSON-ish regex fallback, which may return
something other than null (see the counterexample). -/
theorem strict_scalar_fields_preserved (input key : String)
    (fs : List (String × JsonValue)) (v : JsonValue)
    (hk : jsTrimList key.data ≠ [])
    (hd : key.data.contains '.' = false)
    (hp : tryParseJson input = some (JsonValue.obj fs))
    (hl : jsLookup fs key = some v)
    (hs : isNonNullScalar v = true) :
    extractValue input key = some v := by
  have hstrict : strictResult input key = some v := by
    have hd2 : ¬ ('.' ∈ key.data) := by simpa using hd
    unfold strictResult strictLookup
    simp [hp, hd2, hl, hs]
  have hjson : searchJsonLike input key = some v := by
    unfold searchJsonLike
    simp [hstrict]
  unfold extractValue
  simp [hk, hjson]

theorem strict_scalar_fields_preserved_witness :
    jsTrimList "a".data ≠ [] ∧
    "a".data.contains '.' = false ∧
    tryParseJson "\x7b\"a\":5,\"b\":true,\"c\":\"s\"\x7d" =
      some (JsonValue.obj
        [("a", JsonValue.num 5), ("b", JsonValue.bool true), ("c", JsonValue.str "s")]) ∧
    jsLookup [("a", JsonValue.num 5), ("b", JsonValue.bool true), ("c", JsonValue.str "s")] "a" =
      some (JsonValue.num 5) ∧
    isNonNullScalar (JsonValue.num 5) = true ∧
    extractValue "\x7b\"a\":5,\"b\":true,\"c\":\"s\"\x7d" "a" = some (JsonValue.num 5) :=
  ⟨by decide, rfl, rfl, rfl, rfl,
    strict_scalar_fields_preserved "\x7b\"a\":5,\"b\":true,\"c\":\"s\"\x7d" "a"
      [("a", JsonValue.num 5), ("b", JsonValue.bool true), ("c", JsonValue.str "s")]
      (JsonValue.num 5) (by decide) rfl rfl rfl rfl⟩

/-! ## Claim C7: URL query parameters -/

/-- Claim C7: when the trimmed input parses as a complete URL and the key
is present among its query parameters (an explicit empty-string value
included), the URL strategy returns `decodeMaybe` of the parameter value as
retrieved from the query — the percent-decoded value — and `decodeMaybe`
returns its argument unchanged whenever percent-decoding throws. -/
theorem url_query_param_returned :
    (∀ (input key v : String) (q : List Char),
      parseJsURL (jsTrimList input.data) = some q → formGet q key = some v →
      searchUrlLike input key = some (decodeMaybe v)) ∧
    (∀ s : String, jsDecodeURIComponent s = none → decodeMaybe s = s) := by
  constructor
  · intro input key v q hq hg
    unfold searchUrlLike
    simp [hq, hg]
  · intro s h
    unfold decodeMaybe
    simp [h]

theorem url_query_param_returned_witness :
    parseJsURL (jsTrimList "https://example.com/?eid=abc%20def&x=1".data) =
      some "eid=abc%20def&x=1".data ∧
    formGet "eid=abc%20def&x=1".data "eid" = some "abc def" ∧
    searchUrlLike "https://example.com/?eid=abc%20def&x=1" "eid" =
      some (decodeMaybe "abc def") ∧
    decodeMaybe "abc def" = "abc def" ∧
    extractValue "https://example.com/?eid=abc%20def&x=1" "eid" =
      some (JsonValue.str "abc def") ∧
    jsDecodeURIComponent "%E0%A4%A" = none ∧
    decodeMaybe "%E0%A4%A" = "%E0%A4%A" :=
  ⟨rfl, rfl,
    url_query_param_returned.1 "https://example.com/?eid=abc%20def&x=1" "eid" "abc def"
      "eid=abc%20def&x=1".data rfl rfl,
    rfl, rfl, rfl,
    url_query_param_returned.2 "%E0%A4%A" rfl⟩

/-! ## Helper lemmas for the case-insensitivity and numeric-literal claims -/

theorem charToNat_ofNat (n : Nat) (h : n.isValidChar) : (Char.ofNat n).toNat = n := by
  unfold Char.ofNat
  rw [dif_pos h]
  rfl

theorem asciiLower_fixed (d : Char) (h : ¬(65 ≤ d.toNat ∧ d.toNat ≤ 90)) : asciiLower d = d := by
  unfold asciiLower
  rw [if_neg (by simpa using h)]

theorem asciiLower_not_upper (c : Char) :
    ¬(65 ≤ (asciiLower c).toNat ∧ (asciiLower c).toNat ≤ 90) := by
  unfold asciiLower
  by_cases h : (65 ≤ c.toNat && c.toNat ≤ 90) = true
  · rw [if_pos h]
    have hb : 65 ≤ c.toNat ∧ c.toNat ≤ 90 := by simpa using h
    have hv : (c.toNat + 32).isValidChar := Or.inl (by omega)
    rw [charToNat_ofNat _ hv]
    omega
  · rw [if_neg h]
    simpa using h

theorem asciiLower_idem (c : Char) : asciiLower (asciiLower c) = asciiLower c :=
  asciiLower_fixed _ (asciiLower_not_upper c)

theorem stripCI_lower (key : List Char) :
    ∀ cs, stripCI (key.map asciiLower) cs = stripCI key cs := by
  induction key with
  | nil => intro cs; rfl
  | cons k ks ih =>
    intro cs
    cases cs with
    | nil => rfl
    | cons c cs2 =>
      simp only [List.map_cons]
      unfold stripCI
      rw [asciiLower_idem k, ih cs2]

theorem stripCI_self_append (key : List Char) :
    ∀ rest, stripCI key (key ++ rest) = some rest := by
  induction key with
  | nil => intro rest; rfl
  | cons k ks ih =>
    intro rest
    show stripCI (k :: ks) (k :: (ks ++ rest)) = some rest
    unfold stripCI
    rw [if_pos rfl]
    exact ih rest

theorem takeWhile_all_eq {p : Char → Bool} :
    ∀ l : List Char, l.all p = true → l.takeWhile p = l := by
  intro l
  induction l with
  | nil => intro _; rfl
  | cons a l2 ih =>
    intro h
    rw [List.all_cons, Bool.and_eq_true] at h
    simp [List.takeWhile_cons, h.1, ih h.2]

theorem dropWhile_cons_false {p : Char → Bool} (a : Char) (l : List Char) (h : p a = false) :
    (a :: l).dropWhile p = a :: l := by
  simp [List.dropWhile_cons, h]

theorem jsWSChar_eq_false_of_printable (c : Char) (h1 : 33 ≤ c.toNat) (h2 : c.toNat ≤ 126) :
    jsWSChar c = false := by
  unfold jsWSChar
  simp only [Bool.or_eq_false_iff, Bool.and_eq_false_iff, beq_eq_false_iff_ne, ne_eq,
    decide_eq_false_iff_not]
  omega

theorem numLitChar_toNat (c : Char) (h : numLitChar c = true) :
    (48 ≤ c.toNat ∧ c.toNat ≤ 57) ∨ c.toNat = 45 ∨ c.toNat = 46 := by
  unfold numLitChar isAsciiDigit at h
  simp only [Bool.or_eq_true, Bool.and_eq_true, decide_eq_true_eq, beq_iff_eq] at h
  rcases h with (h1 | rfl) | rfl
  · exact Or.inl h1
  · decide
  · decide

theorem numLitChar_not_ws (c : Char) (h : numLitChar c = true) : jsWSChar c = false := by
  have := numLitChar_toNat c h
  apply jsWSChar_eq_false_of_printable <;> omega

theorem numLitChar_ne_dq (c : Char) (h : numLitChar c = true) : ¬ c = '"' := by
  intro he
  have := numLitChar_toNat c h
  rw [he] at this
  simp at this

theorem numLitChar_ne_sq (c : Char) (h : numLitChar c = true) : ¬ c = '\'' := by
  intro he
  have := numLitChar_toNat c h
  rw [he] at this
  simp at this

theorem altDQ_cons_ne (c : Char) (rest : List Char) (h : ¬ c = '"') :
    altDQ (c :: rest) = none := by
  simp [altDQ, h]

theorem altSQ_cons_ne (c : Char) (rest : List Char) (h : ¬ c = '\'') :
    altSQ (c :: rest) = none := by
  simp [altSQ, h]

theorem jsonishAt_self_key (key r : List Char) :
    jsonishAt key ('"' :: (key ++ '"' :: ':' :: r)) =
      jsonishValueAlt (r.dropWhile jsWSChar) := by
  have hws : jsWSChar ':' = false := rfl
  simp only [jsonishAt, stripCI_self_append, List.dropWhile_cons, hws]
  simp

theorem jsonishAt_lower (key : List Char) (cs : List Char) :
    jsonishAt (key.map asciiLower) cs = jsonishAt key cs := by
  cases cs with
  | nil => rfl
  | cons c rest => simp only [jsonishAt, stripCI_lower]

theorem scanFirst_congr {α : Type} (f g : List Char → Option α) (h : ∀ cs, f cs = g cs) :
    ∀ l, scanFirst f l = scanFirst g l := by
  intro l
  induction l with
  | nil => exact h []
  | cons c rest ih => simp only [scanFirst, h (c :: rest), ih]

/-! ## Claim C8: numeric literals in the JSON-ish fallback -/

/-- Claim C8: a `[\-\d.]+` run matched by the JSON-ish fallback is returned
as the number `Number(run)` when that parses, and as the literal string
otherwise (`page.tsx` lines 106–109).  The input is the canonical shape
`"key":run` with the run ending the text, so the matched group is exactly
`run`. -/
theorem jsonish_numeric_literal (key r : List Char) (hne : r ≠ [])
    (hrun : r.all numLitChar = true) :
    (∀ q : Rat, jsNumber (String.mk r) = some q →
      jsonishFind key ('"' :: (key ++ '"' :: ':' :: r)) = some (JsonValue.num q)) ∧
    (jsNumber (String.mk r) = none →
      jsonishFind key ('"' :: (key ++ '"' :: ':' :: r)) = some (JsonValue.str (String.mk r))) := by
  obtain ⟨c, r2, rfl⟩ : ∃ c r2, r = c :: r2 := by
    cases r with
    | nil => exact absurd rfl hne
    | cons c r2 => exact ⟨c, r2, rfl⟩
  have hc : numLitChar c = true := by
    rw [List.all_cons, Bool.and_eq_true] at hrun
    exact hrun.1
  have hfind : jsonishFind key ('"' :: (key ++ '"' :: ':' :: (c :: r2))) =
      some (numOrStr (c :: r2)) := by
    have hat : jsonishAt key ('"' :: (key ++ '"' :: ':' :: (c :: r2))) =
        some (numOrStr (c :: r2)) := by
      rw [jsonishAt_self_key]
      rw [dropWhile_cons_false _ _ (numLitChar_not_ws c hc)]
      simp only [jsonishValueAlt, altDQ_cons_ne _ _ (numLitChar_ne_dq c hc),
        altSQ_cons_ne _ _ (numLitChar_ne_sq c hc), takeWhile_all_eq _ hrun]
      simp
    unfold jsonishFind
    simp only [scanFirst, hat]
  constructor
  · intro q hq
    rw [hfind]
    simp only [numOrStr, hq]
  · intro hq
    rw [hfind]
    simp only [numOrStr, hq]

theorem jsonish_numeric_literal_witness :
    ("1.2.3".data ≠ [] ∧ "1.2.3".data.all numLitChar = true ∧ jsNumber "1.2.3" = none ∧
      jsonishFind "k".data ('"' :: ("k".data ++ '"' :: ':' :: "1.2.3".data)) =
        some (JsonValue.str "1.2.3")) ∧
    ("-".data ≠ [] ∧ jsNumber "-" = none ∧
      jsonishFind "k".data ('"' :: ("k".data ++ '"' :: ':' :: "-".data)) =
        some (JsonValue.str "-")) ∧
    ("25".data ≠ [] ∧ jsNumber "25" = some 25 ∧
      jsonishFind "k".data ('"' :: ("k".data ++ '"' :: ':' :: "25".data)) =
        some (JsonValue.num 25)) :=
  ⟨⟨by decide, by decide, by decide,
    (jsonish_numeric_literal "k".data "1.2.3".data (by decide) (by decide)).2 (by decide)⟩,
   ⟨by decide, by decide,
    (jsonish_numeric_literal "k".data "-".data (by decide) (by decide)).2 (by decide)⟩,
   ⟨by decide, by decide,
    (jsonish_numeric_literal "k".data "25".data (by decide) (by decide)).1 25 (by decide)⟩⟩

/-! ## Claim C6: the JSON-ish fallback's key and token matching -/

/-- `needle` occurs at the head of the text. -/
def startsWithSeq : List Char → List Char → Bool
  | [], _ => true
  | _ :: _, [] => false
  | a :: as, b :: bs => a == b && startsWithSeq as bs

/-- `needle` occurs (contiguously, case-sensitively) somewhere in the text. -/
def hasSub (needle : List Char) : List Char → Bool
  | [] => needle.isEmpty
  | c :: rest => startsWithSeq needle (c :: rest) || hasSub needle rest

/-- Claim C6 counterexample: in `"EID": "x"` the key `eid` never occurs
quoted exactly as given, yet the JSON-ish fallback (whose `i` flag covers
the whole pattern, not just the boolean token) matches it and returns
`"x"`. -/
theorem jsonish_exact_key_counterexample :
    hasSub "\"eid\"".data "\"EID\": \"x\"".data = false ∧
    searchJsonLike "\"EID\": \"x\"" "eid" = some (JsonValue.str "x") :=
  ⟨rfl, rfl⟩

/-- Claim C6 (amended): in the JSON-ish fallback the key matches literally
up to letter case — regex metacharacters are escaped, but the pattern's `i`
flag makes the match case-insensitive on the whole pattern: the quoted key,
the boolean token, and the null token alike.  The first match in the text
wins, with no disambiguation of multiple occurrences: the result is the
match at the least start position at which the anchored pattern matches,
and no earlier position matches. -/
theorem jsonish_case_insensitive :
    (∀ input key : List Char, jsonishFind key input = jsonishFind (key.map asciiLower) input) ∧
    (∀ key : List Char,
      jsonishFind key ('"' :: (key ++ '"' :: ':' :: "TRUE".data)) = some (JsonValue.bool true)) ∧
    (∀ key : List Char,
      jsonishFind key ('"' :: (key ++ '"' :: ':' :: "NULL".data)) = some JsonValue.null) ∧
    (∀ (input key : List Char) (v : JsonValue), jsonishFind key input = some v →
      ∃ n, n ≤ input.length ∧ jsonishAt key (input.drop n) = some v ∧
        ∀ m, m < n → jsonishAt key (input.drop m) = none) := by
  refine ⟨?_, ?_, ?_, ?_⟩
  · intro input key
    exact (scanFirst_congr _ _ (fun cs => jsonishAt_lower key cs) input).symm
  · intro key
    have hat : jsonishAt key ('"' :: (key ++ '"' :: ':' :: "TRUE".data)) =
        some (JsonValue.bool true) := by
      rw [jsonishAt_self_key]
      rfl
    unfold jsonishFind
    simp only [scanFirst, hat]
  · intro key
    have hat : jsonishAt key ('"' :: (key ++ '"' :: ':' :: "NULL".data)) =
        some JsonValue.null := by
      rw [jsonishAt_self_key]
      rfl
    unfold jsonishFind
    simp only [scanFirst, hat]
  · intro input key v h
    exact scanFirst_characterisation (jsonishAt key) input v h

theorem jsonish_case_insensitive_witness :
    jsonishFind "eid".data "\"EID\": \"x\"".data =
      jsonishFind ("eid".data.map asciiLower) "\"EID\": \"x\"".data ∧
    jsonishFind "k".data ('"' :: ("k".data ++ '"' :: ':' :: "TRUE".data)) =
      some (JsonValue.bool true) ∧
    jsonishFind "k".data ('"' :: ("k".data ++ '"' :: ':' :: "NULL".data)) =
      some JsonValue.null ∧
    (∃ n, n ≤ ("x \"k\": 5".data).length ∧
      jsonishAt "k".data (("x \"k\": 5".data).drop n) = some (JsonValue.num 5) ∧
      ∀ m, m < n → jsonishAt "k".data (("x \"k\": 5".data).drop m) = none) :=
  ⟨jsonish_case_insensitive.1 "\"EID\": \"x\"".data "eid".data,
   jsonish_case_insensitive.2.1 "k".data,
   jsonish_case_insensitive.2.2.1 "k".data,
   jsonish_case_insensitive.2.2.2 "x \"k\": 5".data "k".data (JsonValue.num 5) rfl⟩
